import Mathlib

/-!
Verification of the at-urls-log-stats repository: a shallow embedding of
the metric store (src/metrics.rs), the discovery dispatcher and container
watcher (src/main.rs) and the configuration loader (src/config.rs),
together with theorems settling the frozen claims about them.

Conventions: Rust `Instant` values and durations become `Nat` (seconds);
`Instant::duration_since` saturates, so it becomes truncated `Nat`
subtraction.  `HashMap` becomes an association list whose keys are kept
unique; `u16` / `u64` counters become `Nat` (the counter only ever grows
by 1 so no overflow modelling is needed at the claim level).
-/

namespace UrlsLogStats

/-! ## Metric store (src/metrics.rs) -/

/-- Label of the `requests_per_domain` family: struct `RequestLabel`
(metrics.rs lines 26-30). -/
structure RequestLabel where
  domain : String
  status_code : Nat
deriving DecidableEq, Repr

/-- How often to run cleanup (metrics.rs line 22). -/
def CLEANUP_INTERVAL_SECS : Nat := 10

/-- After how long to remove an entry (metrics.rs line 24). -/
def CLEANUP_ENTRY_TTL_SECS : Nat := 60

/-- Lookup in an association list with unique keys (HashMap get). -/
def assocLookup (k : RequestLabel) : List (RequestLabel × Nat) → Option Nat
  | [] => none
  | (k₁, v) :: rest => if k₁ = k then some v else assocLookup k rest

/-- HashMap remove: drop the entry for `k` (metrics.rs line 89,
`self.domain_requests.remove(&label)`). -/
def assocRemove (k : RequestLabel) (m : List (RequestLabel × Nat)) :
    List (RequestLabel × Nat) :=
  m.filter (fun p => ¬ p.1 = k)

/-- The mutable state of `Metrics` (metrics.rs lines 32-37): the counter
family `domain_requests` and the map `domain_last_seen`. -/
structure MetricsState where
  domain_requests : List (RequestLabel × Nat)
  domain_last_seen : List (RequestLabel × Nat)
deriving Repr

/-- The fresh store built by `Metrics::new` (both maps empty). -/
def MetricsState.init : MetricsState := ⟨[], []⟩

/-- Family get_or_create + Counter inc (metrics.rs line 103): increment
the counter for `k`, creating it (at 0, then incremented to 1) if absent. -/
def getOrCreateInc (k : RequestLabel) : List (RequestLabel × Nat) → List (RequestLabel × Nat)
  | [] => [(k, 1)]
  | (k₁, c) :: rest =>
      if k₁ = k then (k₁, c + 1) :: rest else (k₁, c) :: getOrCreateInc k rest

/-- The last-seen update of `Metrics::request` (metrics.rs lines 104-109):
overwrite the timestamp if the key is present, insert it otherwise. -/
def setLastSeen (k : RequestLabel) (now : Nat) :
    List (RequestLabel × Nat) → List (RequestLabel × Nat)
  | [] => [(k, now)]
  | (k₁, t) :: rest =>
      if k₁ = k then (k₁, now) :: rest else (k₁, t) :: setLastSeen k now rest

/-- `Metrics::request` (metrics.rs lines 98-110): build the label,
increment its counter (creating it if absent) and refresh its
last-activity timestamp to `now`. -/
def Metrics.request (s : MetricsState) (domain : String) (status_code : Nat)
    (now : Nat) : MetricsState :=
  let label : RequestLabel := ⟨domain, status_code⟩
  { domain_requests := getOrCreateInc label s.domain_requests
    domain_last_seen := setLastSeen label now s.domain_last_seen }

/-- One step of the `retain` closure in `periodic_cleanup` (metrics.rs
lines 87-94), threading the kept last-seen entries and the counter map:
a stale entry (`now.duration_since(last_seen) > ttl`) is dropped from the
last-seen map and removed from the counter family; a fresh one is kept. -/
def retainStep (now ttl : Nat)
    (acc : List (RequestLabel × Nat) × List (RequestLabel × Nat))
    (e : RequestLabel × Nat) :
    List (RequestLabel × Nat) × List (RequestLabel × Nat) :=
  if now - e.2 > ttl then (acc.1, assocRemove e.1 acc.2)
  else (acc.1 ++ [e], acc.2)

/-- One pass of the cleanup loop body of `Metrics::periodic_cleanup`
(metrics.rs lines 84-94): sweep the store at time `now` with entry
time-to-live `ttl`. -/
def Metrics.sweep (s : MetricsState) (now ttl : Nat) : MetricsState :=
  let acc := s.domain_last_seen.foldl (retainStep now ttl) ([], s.domain_requests)
  { domain_requests := acc.2, domain_last_seen := acc.1 }

/-- The `/metrics` endpoint renders the counter family: the snapshot is
the list of (label, count) pairs of `domain_requests`. -/
def Metrics.snapshot (s : MetricsState) : List (RequestLabel × Nat) :=
  s.domain_requests

/-- An operation on the store: a `request` call from a watcher or one
pass of the periodic cleanup. -/
inductive MetricsOp where
  | record (domain : String) (status_code : Nat) (now : Nat)
  | sweep (now : Nat) (ttl : Nat)
deriving DecidableEq, Repr

/-- Apply one operation to the store. -/
def applyOp (s : MetricsState) : MetricsOp → MetricsState
  | .record d st now => Metrics.request s d st now
  | .sweep now ttl => Metrics.sweep s now ttl

/-- Run a sequence of operations from the fresh store. -/
def runOps (ops : List MetricsOp) : MetricsState :=
  ops.foldl applyOp MetricsState.init

/-! ## Discovery dispatcher (src/main.rs lines 88-176) -/

/-- One entry of the container-list response (main.rs lines 267-275). -/
structure DockerContainer where
  id : String
  names : List String
  image : String
deriving DecidableEq, Repr

/-- The per-container handle kept by the dispatcher (main.rs lines 24-28);
the cancellation token and the task handle are abstracted away, the
actions taken on them are recorded in the poll's action trace. -/
structure ContainerWatcher where
  name : String
deriving DecidableEq, Repr

/-- Observable actions of one dispatcher poll on the watcher set. -/
inductive DispatchAction where
  | startWatcher (id : String)
  | removeTracked (id : String)
  | stopCancel (id : String)
  | stopAwait (id : String)
deriving DecidableEq, Repr

/-- Rust str::rsplit_once over a character list: split around the LAST
occurrence of `sep`, returning the parts before and after it. -/
def rsplitOnceChar (sep : Char) : List Char → Option (List Char × List Char)
  | [] => none
  | c :: rest =>
    match rsplitOnceChar sep rest with
    | some (a, b) => some (c :: a, b)
    | none => if c = sep then some ([], rest) else none

/-- The image key the dispatcher compares against the configuration
(main.rs line 107): everything before the last colon, or the whole
reference if it has none. -/
def imageKey (image : String) : String :=
  match rsplitOnceChar ':' image.toList with
  | some (a, _) => String.mk a
  | none => image

/-- The inner configured-image loop of the dispatcher (main.rs lines
109-115): the container matches when some configured image equals its
stripped image key. -/
def imageMatches (cfgImages : List String) (image : String) : Bool :=
  cfgImages.any (fun d => d = imageKey image)

/-- Modelled from the spec for claim C7 only (the spec words "image
matching compares the image reference with any trailing `:tag` stripped,
exact string match otherwise"): strip the part after the last colon only
when it is a tag, i.e. nonempty and containing no slash; an image
reference without a tag is compared as-is. -/
def specTagStrip (image : String) : String :=
  match rsplitOnceChar ':' image.toList with
  | some (a, b) => if b ≠ [] ∧ ¬ '/' ∈ b then String.mk a else image
  | none => image

/-- Accumulator of the per-container loop of a successful poll (main.rs
lines 105-130): the tracked map, the fresh alive id set, the actions
taken so far. -/
structure PollSt where
  tracked : List (String × ContainerWatcher)
  alive : List String
  acts : List DispatchAction
deriving Repr

/-- The body of the per-container loop (main.rs lines 106-130): skip a
container whose stripped image matches no configured image; start and
track a watcher for a matching container not yet tracked; record the
container id as alive. -/
def pollStep (cfgImages : List String) (st : PollSt) (c : DockerContainer) :
    PollSt :=
  if imageMatches cfgImages c.image then
    let st₁ :=
      if (st.tracked.map Prod.fst).contains c.id then st
      else
        { st with
          tracked := st.tracked ++ [(c.id, ⟨c.names.head?.getD c.id⟩)]
          acts := st.acts ++ [.startWatcher c.id] }
    { st₁ with
      alive := if st₁.alive.contains c.id then st₁.alive else st₁.alive ++ [c.id] }
  else st

/-- The teardown of one no-longer-alive container (main.rs lines
139-146), in source order: remove the handle from the map, cancel its
token, await its task. -/
def removeStep (acc : List (String × ContainerWatcher) × List DispatchAction)
    (id : String) :
    List (String × ContainerWatcher) × List DispatchAction :=
  (acc.1.filter (fun p => ¬ p.1 = id),
   acc.2 ++ [.removeTracked id, .stopCancel id, .stopAwait id])

/-- Result of one dispatcher poll: the new tracked map, the sleep before
the next poll in seconds, and the trace of actions taken. -/
structure PollResult where
  tracked : List (String × ContainerWatcher)
  sleepSecs : Nat
  acts : List DispatchAction
deriving Repr

/-- The alive id set a successful poll computes for a response (main.rs
lines 105-130). -/
def aliveIds (cfgImages : List String)
    (tracked : List (String × ContainerWatcher))
    (cs : List DockerContainer) : List String :=
  (cs.foldl (pollStep cfgImages) ⟨tracked, [], []⟩).alive

/-- One iteration of the dispatcher loop (main.rs lines 96-153) given the
result of list_containers: on failure keep everything and shorten the
sleep from the default 60s to 10s; on success run the per-container loop
and then tear down every tracked id absent from the alive set. -/
def dispatcherPoll (cfgImages : List String)
    (tracked : List (String × ContainerWatcher))
    (res : Except String (List DockerContainer)) : PollResult :=
  match res with
  | .error _ => { tracked := tracked, sleepSecs := 10, acts := [] }
  | .ok cs =>
    let st := cs.foldl (pollStep cfgImages) ⟨tracked, [], []⟩
    let toRemove := (st.tracked.map Prod.fst).filter (fun id => ¬ st.alive.contains id)
    let fin := toRemove.foldl removeStep (st.tracked, st.acts)
    { tracked := fin.1, sleepSecs := 60, acts := fin.2 }

/-! ## Container watcher retry loop (src/main.rs lines 178-265) -/

/-- The logs-follow request URI (main.rs lines 184-188), built from the
container id and a Unix timestamp for the `since` query parameter. -/
def mkLogsUri (container_id : String) (since : Nat) : String :=
  "http://docker/v1.30/containers/" ++ container_id ++
    "/logs?follow=true&stdout=true&since=" ++ toString since

/-- How one streaming attempt ends: end-of-file or an I/O/transport
error; both are reported with warn! and lead to the same backoff. -/
inductive StreamOutcome where
  | eof
  | err (msg : String)
deriving DecidableEq, Repr

/-- Environment view of one streaming attempt: the wall-clock time at
which the attempt begins, how the stream ends, and whether cancellation
is observed during the backoff select that follows. -/
structure StreamAttempt where
  time : Nat
  outcome : StreamOutcome
  cancelAfter : Bool
deriving Repr

/-- Trace events of the watcher loop: a stream attempt with the URI it
requests, or a backoff sleep of the given number of seconds. -/
inductive WatcherEv where
  | attempt (uri : String)
  | backoff (secs : Nat)
deriving DecidableEq, Repr

/-- The fixed backoff of the watcher loop (main.rs line 262,
sleep(Duration::from_secs(1))). -/
def WATCHER_BACKOFF_SECS : Nat := 1

/-- The watcher loop (main.rs lines 190-264): each iteration issues one
request with the URI computed before the loop; the stream outcome (eof or
error) is only logged, then the loop sleeps the fixed backoff unless
cancellation was observed.  An empty or exhausted attempt list models
cancellation at the head select. -/
def watcherLoop (uri : String) : List StreamAttempt → List WatcherEv
  | [] => []
  | a :: rest =>
    .attempt uri ::
      (if a.cancelAfter then []
       else .backoff WATCHER_BACKOFF_SECS :: watcherLoop uri rest)

/-- The watcher task (main.rs lines 178-265): the URI is computed once,
before the loop, from the wall-clock time at which the watcher starts. -/
def watcherRun (container_id : String) (startTime : Nat)
    (attempts : List StreamAttempt) : List WatcherEv :=
  watcherLoop (mkLogsUri container_id startTime) attempts

/-! ## Watcher line processing (src/main.rs lines 215-249) -/

/-- Whether a byte is an ASCII digit, the only bytes the regex digit
class matches. -/
def isAsciiDigit (b : Nat) : Bool := 48 ≤ b && b ≤ 57

/-- Whether a byte is a UTF-8 continuation byte. -/
def isUtf8Cont (b : Nat) : Bool := 0x80 ≤ b && b ≤ 0xBF

/-- Valid second byte of a three-byte UTF-8 sequence headed by b
(excludes overlong encodings and surrogates, as Rust from_utf8 does). -/
def utf8Valid3 (b b2 : Nat) : Bool :=
  if b = 0xE0 then 0xA0 ≤ b2 && b2 ≤ 0xBF
  else if b = 0xED then 0x80 ≤ b2 && b2 ≤ 0x9F
  else isUtf8Cont b2

/-- Valid second byte of a four-byte UTF-8 sequence headed by b (excludes
overlong encodings and code points above 0x10FFFF, as Rust from_utf8
does). -/
def utf8Valid4 (b b2 : Nat) : Bool :=
  if b = 0xF0 then 0x90 ≤ b2 && b2 ≤ 0xBF
  else if b = 0xF4 then 0x80 ≤ b2 && b2 ≤ 0x8F
  else isUtf8Cont b2

/-- Rust str::from_utf8 on a byte list: decode to characters, or fail on
any ill-formed sequence.  Written with one pattern level per byte so the
equation lemmas stay small. -/
def utf8Decode : List Nat → Option (List Char)
  | [] => some []
  | b :: rest =>
    if b < 0x80 then
      (utf8Decode rest).map (fun cs => Char.ofNat b :: cs)
    else if 0xC2 ≤ b && b ≤ 0xDF then
      match rest with
      | b2 :: rest₂ =>
        if isUtf8Cont b2 then
          (utf8Decode rest₂).map
            (fun cs => Char.ofNat ((b - 0xC0) * 64 + (b2 - 0x80)) :: cs)
        else none
      | [] => none
    else if 0xE0 ≤ b && b ≤ 0xEF then
      match rest with
      | b2 :: rest₂ =>
        match rest₂ with
        | b3 :: rest₃ =>
          if utf8Valid3 b b2 && isUtf8Cont b3 then
            (utf8Decode rest₃).map
              (fun cs =>
                Char.ofNat (((b - 0xE0) * 64 + (b2 - 0x80)) * 64 + (b3 - 0x80)) :: cs)
          else none
        | [] => none
      | [] => none
    else if 0xF0 ≤ b && b ≤ 0xF4 then
      match rest with
      | b2 :: rest₂ =>
        match rest₂ with
        | b3 :: rest₃ =>
          match rest₃ with
          | b4 :: rest₄ =>
            if utf8Valid4 b b2 && isUtf8Cont b3 && isUtf8Cont b4 then
              (utf8Decode rest₄).map
                (fun cs =>
                  Char.ofNat
                    ((((b - 0xF0) * 64 + (b2 - 0x80)) * 64 + (b3 - 0x80)) * 64
                      + (b4 - 0x80)) :: cs)
            else none
          | [] => none
        | [] => none
      | [] => none
    else none

/-- Digit-accumulating loop of u16 from_str: fail on a non-digit
character or when the value leaves the u16 range. -/
def parseU16Go (acc : Nat) : List Char → Option Nat
  | [] => some acc
  | c :: rest =>
    if c.isDigit then
      if acc * 10 + (c.toNat - 48) > 65535 then none
      else parseU16Go (acc * 10 + (c.toNat - 48)) rest
    else none

/-- Rust u16::from_str: an optional leading plus sign (a minus sign is
not accepted for an unsigned type), then at least one digit, no
overflow. -/
def parseU16 (cs : List Char) : Option Nat :=
  match cs with
  | [] => none
  | '+' :: rest =>
    match rest with
    | [] => none
    | _ => parseU16Go 0 rest
  | _ => parseU16Go 0 cs

/-- What the regex engine hands the line loop for one line: whether the
search matched, and the byte spans of capture groups 1 (status) and 2
(domain).  The regex itself is the external Line Extractor; group 1 is
its digit-class capture. -/
structure LineCaptures where
  isMatch : Bool
  group1 : Option (List Nat)
  group2 : Option (List Nat)
deriving DecidableEq, Repr

/-- How the body of the line loop (main.rs lines 223-244) disposes of one
line. -/
inductive LineOutcome where
  | droppedNoMatch
  | droppedNoGroup
  | panicked (msg : String)
  | droppedBadStatus (raw : List Char)
  | droppedBadDomain
  | recorded (domain : List Char) (status : Nat)
deriving DecidableEq, Repr

/-- The body of the line loop (main.rs lines 223-244): drop a non-match
silently; on a match take group 1, decode it (the expect panics on
invalid UTF-8), parse it as u16 (log and drop the line on failure), take
group 2, decode it (drop the line on invalid UTF-8), and otherwise record
the (domain, status) pair. -/
def processLine (caps : LineCaptures) : LineOutcome :=
  if caps.isMatch then
    match caps.group1 with
    | none => .droppedNoGroup
    | some statusBytes =>
      match utf8Decode statusBytes with
      | none => .panicked "invalid utf-8 for status capture, this should never happen."
      | some statusChars =>
        match parseU16 statusChars with
        | none => .droppedBadStatus statusChars
        | some status =>
          match caps.group2 with
          | none => .droppedNoGroup
          | some domainBytes =>
            match utf8Decode domainBytes with
            | none => .droppedBadDomain
            | some domainChars => .recorded domainChars status
  else .droppedNoMatch

/-- The line loop over a whole stream: every non-panicking outcome
continues with the next line; only the expect aborts the task. -/
def runLines : List LineCaptures → Except String (List (List Char × Nat))
  | [] => .ok []
  | l :: rest =>
    match processLine l with
    | .panicked m => .error m
    | .recorded d s => (runLines rest).map (fun evs => (d, s) :: evs)
    | _ => runLines rest

/-! ## Configuration (src/config.rs) -/

/-- The configuration struct (config.rs lines 4-11). -/
structure Config where
  docker_images : List String
  docker_socket : String
  listen_address : String
deriving DecidableEq, Repr

/-- Config::default (config.rs lines 14-20). -/
def Config.defaultConfig : Config :=
  { docker_images := ["atdr.meo.ws/archiveteam/urls-grab"]
    docker_socket := "/var/run/docker.sock"
    listen_address := "0.0.0.0:8000" }

/-- A parsed JSON object for the config: which of the three fields are
present, and their values. -/
structure ConfigJson where
  docker_images : Option (List String)
  docker_socket : Option String
  listen_address : Option String
deriving DecidableEq, Repr

/-- The serde container attribute default = Config::default (config.rs
line 5): every field missing from the document is taken from the default
instance. -/
def deserializeConfig (j : ConfigJson) : Config :=
  { docker_images := j.docker_images.getD Config.defaultConfig.docker_images
    docker_socket := j.docker_socket.getD Config.defaultConfig.docker_socket
    listen_address := j.listen_address.getD Config.defaultConfig.listen_address }

/-- Config::validate (config.rs lines 22-32). -/
def Config.validate (c : Config) : Except String Unit :=
  if c.docker_images = [] then .error "docker_images can't be empty"
  else if c.docker_socket = "" then .error "docker_socket can't be empty"
  else .ok ()

/-- Outcome of opening and JSON-parsing the config file, the two fallible
external steps of load_from_file. -/
inductive FileReadResult where
  | openError (e : String)
  | jsonError (e : String)
  | parsed (j : ConfigJson)
deriving DecidableEq, Repr

/-- Config::load_from_file (config.rs lines 34-45): propagate an open or
parse failure as an error, otherwise validate the deserialized config and
return it on success. -/
def load_from_file (r : FileReadResult) : Except String Config :=
  match r with
  | .openError e => .error ("Failed to open 'config.json' for reading: " ++ e)
  | .jsonError e => .error ("Failed to read config from 'config.json': " ++ e)
  | .parsed j =>
    match (deserializeConfig j).validate with
    | .ok _ => .ok (deserializeConfig j)
    | .error e => .error ("Config failed to validate: " ++ e)

/-! ## Derived predicates used by the statements -/

/-- Whether some entry of the last-seen list would make the sweep at
`now` with the given `ttl` remove the key `k` from the counter family. -/
def staleHit (now ttl : Nat) (entries : List (RequestLabel × Nat))
    (k : RequestLabel) : Bool :=
  entries.any (fun e => e.1 = k ∧ now - e.2 > ttl)

/-- Well-formedness of the store state: both maps have unique keys
(HashMap semantics) and hold exactly the same key set. -/
def WFState (s : MetricsState) : Prop :=
  (s.domain_requests.map Prod.fst).Nodup ∧
  (s.domain_last_seen.map Prod.fst).Nodup ∧
  ∀ k, (assocLookup k s.domain_requests).isSome ↔
    (assocLookup k s.domain_last_seen).isSome

/-- How one operation changes the number of record calls made for key
`k` since the key's last eviction: a record of `k` adds one, a sweep that
evicts `k` (its stored last-activity timestamp is stale at the sweep)
resets the count to zero, everything else leaves it alone. -/
def tallyStep (k : RequestLabel) (s : MetricsState) (acc : Nat) :
    MetricsOp → Nat
  | .record d st _ => if (⟨d, st⟩ : RequestLabel) = k then acc + 1 else acc
  | .sweep now ttl => if staleHit now ttl s.domain_last_seen k then 0 else acc

/-- The number of record calls made for key `k` since the key's last
eviction (or since the start, if it is never evicted) over an operation
sequence starting in state `s` with `acc` calls already tallied. -/
def tally (k : RequestLabel) (s : MetricsState) (acc : Nat) :
    List MetricsOp → Nat
  | [] => acc
  | op :: rest => tally k (applyOp s op) (tallyStep k s acc op) rest

/-- Whether an operation sequence contains no record call for key `k`. -/
def noRecordOf (k : RequestLabel) (ops : List MetricsOp) : Bool :=
  ops.all (fun op =>
    match op with
    | .record d st _ => !((⟨d, st⟩ : RequestLabel) = k)
    | .sweep _ _ => true)

/-- The ids of the watchers a poll's action trace starts. -/
def startIds (acts : List DispatchAction) : List String :=
  acts.filterMap (fun a =>
    match a with
    | .startWatcher id => some id
    | _ => none)

/-! ## Association-list lemmas for the metric store -/

theorem assocLookup_isSome_iff_mem (k : RequestLabel) (m : List (RequestLabel × Nat)) :
    (assocLookup k m).isSome ↔ k ∈ m.map Prod.fst := by
  induction m with
  | nil => simp [assocLookup]
  | cons e rest ih =>
    obtain ⟨k₁, v⟩ := e
    by_cases h : k₁ = k
    · subst h
      simp [assocLookup]
    · have h' : ¬ k = k₁ := fun hh => h hh.symm
      simp [assocLookup, h, h', ih]

theorem assocLookup_getOrCreateInc (k k₁ : RequestLabel)
    (m : List (RequestLabel × Nat)) :
    assocLookup k (getOrCreateInc k₁ m) =
      if k₁ = k then some ((assocLookup k m).getD 0 + 1) else assocLookup k m := by
  induction m with
  | nil =>
    by_cases h : k₁ = k <;> simp [getOrCreateInc, assocLookup, h]
  | cons e rest ih =>
    obtain ⟨k₂, c⟩ := e
    by_cases h₂ : k₂ = k₁
    · subst h₂
      by_cases h : k₂ = k <;> simp [getOrCreateInc, assocLookup, h]
    · by_cases h : k₂ = k
      · subst h
        have : ¬ k₁ = k₂ := fun hh => h₂ hh.symm
        simp [getOrCreateInc, assocLookup, h₂, this]
      · simp [getOrCreateInc, assocLookup, h₂, h, ih]

theorem assocLookup_setLastSeen (k k₁ : RequestLabel) (now : Nat)
    (m : List (RequestLabel × Nat)) :
    assocLookup k (setLastSeen k₁ now m) =
      if k₁ = k then some now else assocLookup k m := by
  induction m with
  | nil =>
    by_cases h : k₁ = k <;> simp [setLastSeen, assocLookup, h]
  | cons e rest ih =>
    obtain ⟨k₂, c⟩ := e
    by_cases h₂ : k₂ = k₁
    · subst h₂
      by_cases h : k₂ = k <;> simp [setLastSeen, assocLookup, h]
    · by_cases h : k₂ = k
      · subst h
        have : ¬ k₁ = k₂ := fun hh => h₂ hh.symm
        simp [setLastSeen, assocLookup, h₂, this]
      · simp [setLastSeen, assocLookup, h₂, h, ih]

theorem keys_getOrCreateInc (k₁ : RequestLabel) (m : List (RequestLabel × Nat)) :
    (getOrCreateInc k₁ m).map Prod.fst =
      if k₁ ∈ m.map Prod.fst then m.map Prod.fst else m.map Prod.fst ++ [k₁] := by
  induction m with
  | nil => simp [getOrCreateInc]
  | cons e rest ih =>
    obtain ⟨k₂, c⟩ := e
    by_cases h₂ : k₂ = k₁
    · subst h₂
      simp [getOrCreateInc]
    · have : ¬ k₁ = k₂ := fun hh => h₂ hh.symm
      by_cases hmem : k₁ ∈ rest.map Prod.fst <;>
        simp [getOrCreateInc, h₂, this, hmem, ih]

theorem keys_setLastSeen (k₁ : RequestLabel) (now : Nat)
    (m : List (RequestLabel × Nat)) :
    (setLastSeen k₁ now m).map Prod.fst =
      if k₁ ∈ m.map Prod.fst then m.map Prod.fst else m.map Prod.fst ++ [k₁] := by
  induction m with
  | nil => simp [setLastSeen]
  | cons e rest ih =>
    obtain ⟨k₂, c⟩ := e
    by_cases h₂ : k₂ = k₁
    · subst h₂
      simp [setLastSeen]
    · have : ¬ k₁ = k₂ := fun hh => h₂ hh.symm
      by_cases hmem : k₁ ∈ rest.map Prod.fst <;>
        simp [setLastSeen, h₂, this, hmem, ih]

theorem foldl_retainStep_fst (now ttl : Nat) (entries : List (RequestLabel × Nat))
    (acc₁ acc₂ : List (RequestLabel × Nat)) :
    (entries.foldl (retainStep now ttl) (acc₁, acc₂)).1 =
      acc₁ ++ entries.filter (fun e => ¬ now - e.2 > ttl) := by
  induction entries generalizing acc₁ acc₂ with
  | nil => simp
  | cons e rest ih =>
    by_cases h : now - e.2 > ttl
    · simp only [List.foldl_cons, retainStep, h, if_true]
      rw [ih, List.filter_cons]
      simp [h]
    · simp only [List.foldl_cons, retainStep, h, if_false]
      rw [ih, List.filter_cons]
      simp [h, List.append_assoc]

theorem foldl_retainStep_snd (now ttl : Nat) (entries : List (RequestLabel × Nat))
    (acc₁ acc₂ : List (RequestLabel × Nat)) :
    (entries.foldl (retainStep now ttl) (acc₁, acc₂)).2 =
      acc₂.filter (fun p => !staleHit now ttl entries p.1) := by
  induction entries generalizing acc₁ acc₂ with
  | nil => simp [staleHit]
  | cons e rest ih =>
    by_cases h : now - e.2 > ttl
    · simp only [List.foldl_cons, retainStep, h, if_pos]
      rw [ih]
      show (assocRemove e.1 acc₂).filter _ = _
      rw [assocRemove, List.filter_filter]
      apply List.filter_congr
      intro p _
      by_cases hp : p.1 = e.1
      · simp [staleHit, hp, h]
      · have hp' : ¬ e.1 = p.1 := fun hh => hp hh.symm
        simp [staleHit, hp, hp']
    · simp only [List.foldl_cons, retainStep, h, if_neg, not_false_iff]
      rw [ih]
      apply List.filter_congr
      intro p _
      simp [staleHit, h]

theorem assocLookup_filter (q : RequestLabel × Nat → Bool) (k : RequestLabel)
    (m : List (RequestLabel × Nat)) (hnd : (m.map Prod.fst).Nodup) :
    assocLookup k (m.filter q) =
      match assocLookup k m with
      | some v => if q (k, v) then some v else none
      | none => none := by
  induction m with
  | nil => simp [assocLookup]
  | cons e rest ih =>
    obtain ⟨k₁, v⟩ := e
    simp only [List.map_cons, List.nodup_cons] at hnd
    by_cases h : k₁ = k
    · subst h
      have hnone : assocLookup k₁ rest = none := by
        cases hlk : assocLookup k₁ rest with
        | none => rfl
        | some t =>
          exfalso
          exact hnd.1 ((assocLookup_isSome_iff_mem k₁ rest).1 (by simp [hlk]))
      have hnone₂ : assocLookup k₁ (rest.filter q) = none := by
        cases hlk : assocLookup k₁ (rest.filter q) with
        | none => rfl
        | some t =>
          exfalso
          have hmem := (assocLookup_isSome_iff_mem k₁ (rest.filter q)).1 (by simp [hlk])
          exact hnd.1 (List.map_subset Prod.fst (List.filter_subset' rest) hmem)
      by_cases hq : q (k₁, v) = true <;>
        simp [assocLookup, hq, hnone, hnone₂]
    · by_cases hq : q (k₁, v) = true <;>
        simp [assocLookup, h, hq, ih hnd.2]

theorem staleHit_iff_lookup (now ttl : Nat) (entries : List (RequestLabel × Nat))
    (k : RequestLabel) (hnd : (entries.map Prod.fst).Nodup) :
    staleHit now ttl entries k = true ↔
      ∃ t, assocLookup k entries = some t ∧ now - t > ttl := by
  induction entries with
  | nil => simp [staleHit, assocLookup]
  | cons e rest ih =>
    obtain ⟨k₁, t₁⟩ := e
    simp only [List.map_cons, List.nodup_cons] at hnd
    by_cases h : k₁ = k
    · subst h
      have hnone : assocLookup k₁ rest = none := by
        cases hlk : assocLookup k₁ rest with
        | none => rfl
        | some t =>
          exfalso
          exact hnd.1 ((assocLookup_isSome_iff_mem k₁ rest).1 (by simp [hlk]))
      constructor
      · intro hh
        simp only [staleHit, List.any_cons, Bool.or_eq_true] at hh
        rcases hh with hh | hh
        · refine ⟨t₁, by simp [assocLookup], ?_⟩
          simpa using hh
        · rcases (ih hnd.2).1 hh with ⟨t, hlk, _⟩
          rw [hnone] at hlk
          exact absurd hlk (by simp)
      · rintro ⟨t, hlk, hstale⟩
        simp only [assocLookup, if_pos] at hlk
        simp only [staleHit, List.any_cons, Bool.or_eq_true]
        left
        simp only [Option.some_inj] at hlk
        simp [hlk ▸ hstale]
    · have heq : staleHit now ttl ((k₁, t₁) :: rest) k = staleHit now ttl rest k := by
        simp [staleHit, h]
      rw [heq, ih hnd.2]
      simp [assocLookup, h]

theorem sweep_last_seen_lookup (s : MetricsState) (now ttl : Nat)
    (k : RequestLabel) (hnd : (s.domain_last_seen.map Prod.fst).Nodup) :
    assocLookup k (Metrics.sweep s now ttl).domain_last_seen =
      match assocLookup k s.domain_last_seen with
      | some t => if now - t > ttl then none else some t
      | none => none := by
  show assocLookup k
      (s.domain_last_seen.foldl (retainStep now ttl) ([], s.domain_requests)).1 = _
  rw [foldl_retainStep_fst, List.nil_append, assocLookup_filter _ k _ hnd]
  cases hlk : assocLookup k s.domain_last_seen with
  | none => rfl
  | some t => by_cases h : now - t > ttl <;> simp [h]

theorem sweep_requests_lookup (s : MetricsState) (now ttl : Nat)
    (k : RequestLabel) (hnd : (s.domain_requests.map Prod.fst).Nodup) :
    assocLookup k (Metrics.sweep s now ttl).domain_requests =
      if staleHit now ttl s.domain_last_seen k then none
      else assocLookup k s.domain_requests := by
  show assocLookup k
      (s.domain_last_seen.foldl (retainStep now ttl) ([], s.domain_requests)).2 = _
  rw [foldl_retainStep_snd, assocLookup_filter _ k _ hnd]
  cases hlk : assocLookup k s.domain_requests with
  | none => by_cases h : staleHit now ttl s.domain_last_seen k <;> simp [h]
  | some v => by_cases h : staleHit now ttl s.domain_last_seen k <;> simp [h]

theorem wf_init : WFState MetricsState.init := by
  refine ⟨by simp [MetricsState.init], by simp [MetricsState.init], ?_⟩
  intro k
  simp [MetricsState.init, assocLookup]

theorem wf_request (s : MetricsState) (d : String) (st now : Nat)
    (h : WFState s) : WFState (Metrics.request s d st now) := by
  obtain ⟨h₁, h₂, h₃⟩ := h
  refine ⟨?_, ?_, ?_⟩
  · show ((getOrCreateInc ⟨d, st⟩ s.domain_requests).map Prod.fst).Nodup
    rw [keys_getOrCreateInc]
    by_cases hmem : (⟨d, st⟩ : RequestLabel) ∈ s.domain_requests.map Prod.fst <;>
      simp [hmem, h₁, List.nodup_append, List.disjoint_left]
  · show ((setLastSeen ⟨d, st⟩ now s.domain_last_seen).map Prod.fst).Nodup
    rw [keys_setLastSeen]
    by_cases hmem : (⟨d, st⟩ : RequestLabel) ∈ s.domain_last_seen.map Prod.fst <;>
      simp [hmem, h₂, List.nodup_append, List.disjoint_left]
  · intro k
    show (assocLookup k (getOrCreateInc ⟨d, st⟩ s.domain_requests)).isSome ↔
      (assocLookup k (setLastSeen ⟨d, st⟩ now s.domain_last_seen)).isSome
    rw [assocLookup_getOrCreateInc, assocLookup_setLastSeen]
    by_cases hk : (⟨d, st⟩ : RequestLabel) = k <;> simp [hk, h₃ k]

theorem wf_sweep (s : MetricsState) (now ttl : Nat) (h : WFState s) :
    WFState (Metrics.sweep s now ttl) := by
  obtain ⟨h₁, h₂, h₃⟩ := h
  refine ⟨?_, ?_, ?_⟩
  · show ((s.domain_last_seen.foldl (retainStep now ttl)
      ([], s.domain_requests)).2.map Prod.fst).Nodup
    rw [foldl_retainStep_snd]
    exact h₁.sublist (List.Sublist.map Prod.fst (List.filter_sublist _))
  · show ((s.domain_last_seen.foldl (retainStep now ttl)
      ([], s.domain_requests)).1.map Prod.fst).Nodup
    rw [foldl_retainStep_fst, List.nil_append]
    exact h₂.sublist (List.Sublist.map Prod.fst (List.filter_sublist _))
  · intro k
    rw [sweep_last_seen_lookup s now ttl k h₂, sweep_requests_lookup s now ttl k h₁]
    cases hlk : assocLookup k s.domain_last_seen with
    | none =>
      have hsh : staleHit now ttl s.domain_last_seen k = false := by
        rw [Bool.eq_false_iff]
        intro hc
        rcases (staleHit_iff_lookup now ttl s.domain_last_seen k h₂).1 hc with ⟨t, ht, _⟩
        rw [hlk] at ht
        exact absurd ht (by simp)
      simp [hsh, h₃ k, hlk]
    | some t =>
      by_cases hst : now - t > ttl
      · have hsh : staleHit now ttl s.domain_last_seen k = true :=
          (staleHit_iff_lookup now ttl s.domain_last_seen k h₂).2 ⟨t, hlk, hst⟩
        simp [hsh, hst]
      · have hsh : staleHit now ttl s.domain_last_seen k = false := by
          rw [Bool.eq_false_iff]
          intro hc
          rcases (staleHit_iff_lookup now ttl s.domain_last_seen k h₂).1 hc with ⟨t₂, ht₂, hst₂⟩
          rw [hlk] at ht₂
          simp only [Option.some_inj] at ht₂
          exact hst (ht₂ ▸ hst₂)
        simp [hsh, hst, h₃ k, hlk]

theorem wf_applyOp (s : MetricsState) (op : MetricsOp) (h : WFState s) :
    WFState (applyOp s op) := by
  cases op with
  | record d st now => exact wf_request s d st now h
  | sweep now ttl => exact wf_sweep s now ttl h

theorem wf_foldl (s : MetricsState) (ops : List MetricsOp) (h : WFState s) :
    WFState (ops.foldl applyOp s) := by
  induction ops generalizing s with
  | nil => exact h
  | cons op rest ih => exact ih (applyOp s op) (wf_applyOp s op h)

theorem wf_runOps (ops : List MetricsOp) : WFState (runOps ops) :=
  wf_foldl MetricsState.init ops wf_init

theorem count_eq_tally_aux (k : RequestLabel) (ops : List MetricsOp)
    (s : MetricsState) (acc : Nat) (hwf : WFState s)
    (hlk : assocLookup k s.domain_requests = if acc = 0 then none else some acc) :
    assocLookup k (ops.foldl applyOp s).domain_requests =
      (if tally k s acc ops = 0 then none else some (tally k s acc ops)) := by
  induction ops generalizing s acc with
  | nil => simpa [tally] using hlk
  | cons op rest ih =>
    show assocLookup k (rest.foldl applyOp (applyOp s op)).domain_requests =
      (if tally k (applyOp s op) (tallyStep k s acc op) rest = 0 then none
       else some (tally k (applyOp s op) (tallyStep k s acc op) rest))
    apply ih (applyOp s op) (tallyStep k s acc op) (wf_applyOp s op hwf)
    cases op with
    | record d st now =>
      show assocLookup k (Metrics.request s d st now).domain_requests = _
      show assocLookup k (getOrCreateInc ⟨d, st⟩ s.domain_requests) = _
      rw [assocLookup_getOrCreateInc]
      by_cases hk : (⟨d, st⟩ : RequestLabel) = k
      · have hgd : (assocLookup k s.domain_requests).getD 0 = acc := by
          rw [hlk]
          by_cases h0 : acc = 0 <;> simp [h0]
        simp [hk, tallyStep, hgd]
      · simpa [hk, tallyStep] using hlk
    | sweep now ttl =>
      show assocLookup k (Metrics.sweep s now ttl).domain_requests = _
      rw [sweep_requests_lookup s now ttl k hwf.1]
      by_cases hsh : staleHit now ttl s.domain_last_seen k <;>
        simp [hsh, tallyStep, hlk]

theorem absent_stays_absent (k : RequestLabel) (ops : List MetricsOp)
    (s : MetricsState) (hwf : WFState s)
    (h : assocLookup k s.domain_requests = none)
    (hnr : noRecordOf k ops = true) :
    assocLookup k (ops.foldl applyOp s).domain_requests = none := by
  induction ops generalizing s with
  | nil => exact h
  | cons op rest ih =>
    have hnr₂ : noRecordOf k rest = true := by
      simp only [noRecordOf, List.all_cons, Bool.and_eq_true] at hnr
      exact hnr.2
    refine ih (applyOp s op) (wf_applyOp s op hwf) ?_ hnr₂
    cases op with
    | record d st now =>
      have hk : ¬ (⟨d, st⟩ : RequestLabel) = k := by
        simp only [noRecordOf, List.all_cons, Bool.and_eq_true] at hnr
        simpa using hnr.1
      show assocLookup k (getOrCreateInc ⟨d, st⟩ s.domain_requests) = none
      rw [assocLookup_getOrCreateInc]
      simpa [hk] using h
    | sweep now ttl =>
      show assocLookup k (Metrics.sweep s now ttl).domain_requests = none
      rw [sweep_requests_lookup s now ttl k hwf.1, h]
      split <;> rfl

/-! ## The claims about the metric store -/

/-- Claim C1: for every sequence of record and sweep operations, the
final counter value for a key equals the number of record calls made for
exactly that key since the key's last eviction (or since the start, if
never evicted) — the counter entry is absent exactly when that number is
zero; moreover a single record call increments the counter for its key,
creating the entry (at one) if absent. -/
theorem claim_C1_record_counts :
    (∀ (ops : List MetricsOp) (k : RequestLabel),
      assocLookup k (runOps ops).domain_requests =
        (if tally k MetricsState.init 0 ops = 0 then none
         else some (tally k MetricsState.init 0 ops))) ∧
    (∀ (s : MetricsState) (d : String) (st now : Nat),
      assocLookup ⟨d, st⟩ (Metrics.request s d st now).domain_requests =
        some ((assocLookup ⟨d, st⟩ s.domain_requests).getD 0 + 1)) := by
  constructor
  · intro ops k
    exact count_eq_tally_aux k ops MetricsState.init 0 wf_init (by simp [MetricsState.init, assocLookup])
  · intro s d st now
    show assocLookup ⟨d, st⟩ (getOrCreateInc ⟨d, st⟩ s.domain_requests) = _
    rw [assocLookup_getOrCreateInc]
    simp

/-- Claim C9: after every sequence of completed record and sweep
operations, the set of keys present in the last-seen map equals the set
of keys present in the counter family. -/
theorem claim_C9_keys_aligned (ops : List MetricsOp) (k : RequestLabel) :
    k ∈ (runOps ops).domain_requests.map Prod.fst ↔
      k ∈ (runOps ops).domain_last_seen.map Prod.fst := by
  rw [← assocLookup_isSome_iff_mem, ← assocLookup_isSome_iff_mem]
  exact (wf_runOps ops).2.2 k

/-- Claim C2: on any reachable store state, a sweep at time now with the
given ttl removes exactly those entries whose last-activity timestamp is
older than now - ttl, removing each such key from both the last-seen map
and the counter family entirely; a key so evicted is absent from every
subsequent snapshot until recorded again; an entry whose timestamp is
within the ttl is left unchanged in both maps, and a key with no entry
stays absent. -/
theorem claim_C2_sweep_evicts (ops : List MetricsOp) (now ttl : Nat)
    (k : RequestLabel) :
    (∀ t, assocLookup k (runOps ops).domain_last_seen = some t →
      t < now - ttl →
      assocLookup k (applyOp (runOps ops) (.sweep now ttl)).domain_last_seen = none ∧
      assocLookup k (applyOp (runOps ops) (.sweep now ttl)).domain_requests = none ∧
      (∀ ops₂, noRecordOf k ops₂ = true →
        assocLookup k
          (Metrics.snapshot
            (ops₂.foldl applyOp (applyOp (runOps ops) (.sweep now ttl)))) = none)) ∧
    (∀ t, assocLookup k (runOps ops).domain_last_seen = some t →
      ¬ t < now - ttl →
      assocLookup k (applyOp (runOps ops) (.sweep now ttl)).domain_last_seen = some t ∧
      assocLookup k (applyOp (runOps ops) (.sweep now ttl)).domain_requests =
        assocLookup k (runOps ops).domain_requests) ∧
    (assocLookup k (runOps ops).domain_last_seen = none →
      assocLookup k (applyOp (runOps ops) (.sweep now ttl)).domain_last_seen = none ∧
      assocLookup k (applyOp (runOps ops) (.sweep now ttl)).domain_requests = none) := by
  have hwf := wf_runOps ops
  have hls := sweep_last_seen_lookup (runOps ops) now ttl k hwf.2.1
  have hrq := sweep_requests_lookup (runOps ops) now ttl k hwf.1
  refine ⟨?_, ?_, ?_⟩
  · intro t hlk hold
    have hstale : now - t > ttl := by omega
    have hsh : staleHit now ttl (runOps ops).domain_last_seen k = true :=
      (staleHit_iff_lookup now ttl _ k hwf.2.1).2 ⟨t, hlk, hstale⟩
    have h₂ : assocLookup k
        (applyOp (runOps ops) (.sweep now ttl)).domain_requests = none := by
      show assocLookup k (Metrics.sweep (runOps ops) now ttl).domain_requests = none
      rw [hrq]
      simp [hsh]
    refine ⟨?_, h₂, ?_⟩
    · show assocLookup k (Metrics.sweep (runOps ops) now ttl).domain_last_seen = none
      rw [hls, hlk]
      simp [hstale]
    · intro ops₂ hnr
      show assocLookup k
        (ops₂.foldl applyOp (applyOp (runOps ops) (.sweep now ttl))).domain_requests = none
      exact absent_stays_absent k ops₂ _ (wf_applyOp _ _ hwf) h₂ hnr
  · intro t hlk hold
    have hfresh : ¬ now - t > ttl := by omega
    have hsh : staleHit now ttl (runOps ops).domain_last_seen k = false := by
      rw [Bool.eq_false_iff]
      intro hc
      rcases (staleHit_iff_lookup now ttl _ k hwf.2.1).1 hc with ⟨t₂, ht₂, hst₂⟩
      rw [hlk] at ht₂
      simp only [Option.some_inj] at ht₂
      exact hfresh (ht₂ ▸ hst₂)
    constructor
    · show assocLookup k (Metrics.sweep (runOps ops) now ttl).domain_last_seen = some t
      rw [hls, hlk]
      simp [hfresh]
    · show assocLookup k (Metrics.sweep (runOps ops) now ttl).domain_requests = _
      rw [hrq]
      simp [hsh]
  · intro hlk
    have hreq : assocLookup k (runOps ops).domain_requests = none := by
      cases hx : assocLookup k (runOps ops).domain_requests with
      | none => rfl
      | some v =>
        exfalso
        have hsome := (hwf.2.2 k).1 (by simp [hx])
        rw [hlk] at hsome
        simp at hsome
    constructor
    · show assocLookup k (Metrics.sweep (runOps ops) now ttl).domain_last_seen = none
      rw [hls, hlk]
    · show assocLookup k (Metrics.sweep (runOps ops) now ttl).domain_requests = none
      rw [hrq, hreq]
      split <;> rfl

/-- Witness for claim C2 at concrete inputs: a key recorded at time 0 is
evicted by a sweep at time 100 with ttl 60 (gone from both maps and from
a later snapshot with no new record), while a key recorded at time 5 is
untouched by a sweep at time 40. -/
theorem claim_C2_sweep_evicts_witness :
    assocLookup ⟨"example.com", 200⟩
      (applyOp (runOps [.record "example.com" 200 0]) (.sweep 100 60)).domain_requests = none ∧
    assocLookup ⟨"example.com", 200⟩
      (Metrics.snapshot
        ([MetricsOp.sweep 200 60].foldl applyOp
          (applyOp (runOps [.record "example.com" 200 0]) (.sweep 100 60)))) = none ∧
    assocLookup ⟨"example.com", 200⟩
      (applyOp (runOps [.record "example.com" 200 5]) (.sweep 40 60)).domain_last_seen = some 5 := by
  refine ⟨?_, ?_, ?_⟩
  · exact (((claim_C2_sweep_evicts [.record "example.com" 200 0] 100 60
      ⟨"example.com", 200⟩).1 0 (by decide) (by decide)).2).1
  · exact (((claim_C2_sweep_evicts [.record "example.com" 200 0] 100 60
      ⟨"example.com", 200⟩).1 0 (by decide) (by decide)).2).2 [MetricsOp.sweep 200 60] (by decide)
  · exact ((claim_C2_sweep_evicts [.record "example.com" 200 5] 40 60
      ⟨"example.com", 200⟩).2.1 5 (by decide) (by decide)).1

/-! ## Dispatcher lemmas -/

theorem pollStep_split (cfg : List String) (st : PollSt) (c : DockerContainer) :
    ((pollStep cfg st c).tracked = st.tracked ∧ (pollStep cfg st c).acts = st.acts) ∨
    (¬ c.id ∈ st.tracked.map Prod.fst ∧
      (pollStep cfg st c).tracked =
        st.tracked ++ [(c.id, ⟨c.names.head?.getD c.id⟩)] ∧
      (pollStep cfg st c).acts = st.acts ++ [.startWatcher c.id]) := by
  by_cases hm : imageMatches cfg c.image
  · by_cases hc : (st.tracked.map Prod.fst).contains c.id
    · left
      unfold pollStep
      rw [if_pos hm, if_pos hc]
      exact ⟨rfl, rfl⟩
    · right
      refine ⟨fun hmem => hc (List.elem_iff.2 hmem), ?_, ?_⟩ <;>
        · unfold pollStep
          rw [if_pos hm, if_neg hc]
  · left
    unfold pollStep
    rw [if_neg hm]
    exact ⟨rfl, rfl⟩

theorem pollFold_inv (cfg : List String) (cs : List DockerContainer) (st : PollSt)
    (h₁ : (st.tracked.map Prod.fst).Nodup)
    (h₂ : ∀ id, id ∈ startIds st.acts → id ∈ st.tracked.map Prod.fst)
    (h₃ : (startIds st.acts).Nodup) :
    ((cs.foldl (pollStep cfg) st).tracked.map Prod.fst).Nodup ∧
    (∀ id, id ∈ startIds (cs.foldl (pollStep cfg) st).acts →
      id ∈ (cs.foldl (pollStep cfg) st).tracked.map Prod.fst) ∧
    (startIds (cs.foldl (pollStep cfg) st).acts).Nodup := by
  induction cs generalizing st with
  | nil => exact ⟨h₁, h₂, h₃⟩
  | cons c rest ih =>
    rcases pollStep_split cfg st c with ⟨ht, ha⟩ | ⟨hnew, ht, ha⟩
    · refine ih (pollStep cfg st c) ?_ ?_ ?_
      · rw [ht]
        exact h₁
      · intro id hid
        rw [ht]
        apply h₂
        rwa [ha] at hid
      · rw [ha]
        exact h₃
    · have hkeys : (pollStep cfg st c).tracked.map Prod.fst =
          st.tracked.map Prod.fst ++ [c.id] := by
        rw [ht]
        simp
      have hstart : startIds (pollStep cfg st c).acts =
          startIds st.acts ++ [c.id] := by
        rw [ha, startIds, List.filterMap_append]
        rfl
      refine ih (pollStep cfg st c) ?_ ?_ ?_
      · rw [hkeys]
        refine List.Nodup.append h₁ (List.nodup_singleton c.id) ?_
        intro a ha₁ ha₂
        simp only [List.mem_singleton] at ha₂
        exact hnew (ha₂ ▸ ha₁)
      · intro id hid
        rw [hstart] at hid
        rw [hkeys]
        rcases List.mem_append.1 hid with hid | hid
        · exact List.mem_append.2 (Or.inl (h₂ id hid))
        · exact List.mem_append.2 (Or.inr hid)
      · rw [hstart]
        refine List.Nodup.append h₃ (List.nodup_singleton c.id) ?_
        intro a ha₁ ha₂
        simp only [List.mem_singleton] at ha₂
        subst ha₂
        exact hnew (h₂ _ ha₁)

theorem pollFold_no_restart (cfg : List String) (cs : List DockerContainer)
    (st : PollSt) (id : String)
    (hid : id ∈ st.tracked.map Prod.fst)
    (hact : DispatchAction.startWatcher id ∉ st.acts) :
    id ∈ (cs.foldl (pollStep cfg) st).tracked.map Prod.fst ∧
    DispatchAction.startWatcher id ∉ (cs.foldl (pollStep cfg) st).acts := by
  induction cs generalizing st with
  | nil => exact ⟨hid, hact⟩
  | cons c rest ih =>
    rcases pollStep_split cfg st c with ⟨ht, ha⟩ | ⟨hnew, ht, ha⟩
    · refine ih (pollStep cfg st c) ?_ ?_
      · rw [ht]
        exact hid
      · rw [ha]
        exact hact
    · refine ih (pollStep cfg st c) ?_ ?_
      · rw [ht]
        simp only [List.map_append]
        exact List.mem_append.2 (Or.inl hid)
      · rw [ha]
        intro hmem
        rcases List.mem_append.1 hmem with hmem | hmem
        · exact hact hmem
        · simp only [List.mem_singleton, DispatchAction.startWatcher.injEq] at hmem
          exact hnew (hmem ▸ hid)

theorem removeFold_fst (ids : List String)
    (acc : List (String × ContainerWatcher) × List DispatchAction) :
    (ids.foldl removeStep acc).1 = acc.1.filter (fun p => ¬ p.1 ∈ ids) := by
  induction ids generalizing acc with
  | nil => simp
  | cons id rest ih =>
    show (rest.foldl removeStep (removeStep acc id)).1 = _
    rw [ih, removeStep, List.filter_filter]
    apply List.filter_congr
    intro p _
    by_cases hp : p.1 = id <;> simp [hp]

theorem removeFold_snd (ids : List String)
    (acc : List (String × ContainerWatcher) × List DispatchAction) :
    (ids.foldl removeStep acc).2 =
      acc.2 ++ ids.flatMap (fun id =>
        [DispatchAction.removeTracked id, DispatchAction.stopCancel id,
         DispatchAction.stopAwait id]) := by
  induction ids generalizing acc with
  | nil => simp
  | cons id rest ih =>
    show (rest.foldl removeStep (removeStep acc id)).2 = _
    rw [ih, removeStep]
    simp [List.append_assoc]

theorem startIds_flatMap_removals (ids : List String) :
    startIds (ids.flatMap (fun id =>
      [DispatchAction.removeTracked id, DispatchAction.stopCancel id,
       DispatchAction.stopAwait id])) = [] := by
  induction ids with
  | nil => rfl
  | cons id rest ih =>
    simp only [List.flatMap_cons]
    rw [startIds, List.filterMap_append]
    show startIds [DispatchAction.removeTracked id, DispatchAction.stopCancel id,
      DispatchAction.stopAwait id] ++ startIds _ = []
    rw [ih]
    rfl

theorem startWatcher_mem_startIds (id : String) (acts : List DispatchAction)
    (h : DispatchAction.startWatcher id ∈ acts) : id ∈ startIds acts := by
  rw [startIds, List.mem_filterMap]
  exact ⟨_, h, rfl⟩

theorem flatMap_removals_block (ids : List String) (id : String) (h : id ∈ ids) :
    ∃ l₁ l₂, ids.flatMap (fun i =>
      [DispatchAction.removeTracked i, DispatchAction.stopCancel i,
       DispatchAction.stopAwait i]) =
      l₁ ++ [DispatchAction.removeTracked id, DispatchAction.stopCancel id,
        DispatchAction.stopAwait id] ++ l₂ := by
  induction ids with
  | nil => exact absurd h (List.not_mem_nil id)
  | cons i rest ih =>
    rcases List.mem_cons.1 h with h | h
    · subst h
      exact ⟨[], rest.flatMap (fun i =>
        [DispatchAction.removeTracked i, DispatchAction.stopCancel i,
         DispatchAction.stopAwait i]), by simp⟩
    · rcases ih h with ⟨l₁, l₂, hl⟩
      refine ⟨[DispatchAction.removeTracked i, DispatchAction.stopCancel i,
        DispatchAction.stopAwait i] ++ l₁, l₂, ?_⟩
      simp only [List.flatMap_cons, hl]
      simp [List.append_assoc]

theorem rsplitOnceChar_eq_none_iff (sep : Char) (l : List Char) :
    rsplitOnceChar sep l = none ↔ ¬ sep ∈ l := by
  induction l with
  | nil => simp [rsplitOnceChar]
  | cons c rest ih =>
    cases h : rsplitOnceChar sep rest with
    | some p =>
      have hmem : sep ∈ rest := by
        by_contra hc
        rw [ih.2 hc] at h
        exact absurd h (by simp)
      simp [rsplitOnceChar, h, hmem]
    | none =>
      have hn : ¬ sep ∈ rest := ih.1 h
      by_cases hc : c = sep
      · simp [rsplitOnceChar, h, hc, hn]
      · have hc' : ¬ sep = c := fun hh => hc hh.symm
        simp [rsplitOnceChar, h, hc, hc', hn]

/-! ## The claims about the dispatcher -/

/-- Claim C4: a reconciler poll whose container-list fetch fails leaves
the tracked watcher set completely unchanged, takes no action on any
watcher, and shortens the delay before the next poll to 10 seconds,
whereas a successful poll sleeps the default 60 seconds. -/
theorem claim_C4_discovery_failure (cfg : List String)
    (tracked : List (String × ContainerWatcher)) :
    (∀ e, dispatcherPoll cfg tracked (.error e) =
      { tracked := tracked, sleepSecs := 10, acts := [] }) ∧
    (∀ cs, (dispatcherPoll cfg tracked (.ok cs)).sleepSecs = 60) :=
  ⟨fun _ => rfl, fun _ => rfl⟩

/-- Claim C5: starting from a duplicate-free tracked map, every
intermediate state of the per-container loop keeps the tracked keys
duplicate-free, the final tracked map of a successful poll is
duplicate-free, no two watcher starts of one poll share a container id,
and a container id already present in the tracked map is never started
again. -/
theorem claim_C5_at_most_one_watcher (cfg : List String)
    (tracked : List (String × ContainerWatcher)) (cs : List DockerContainer)
    (h : (tracked.map Prod.fst).Nodup) :
    (∀ n, (((cs.take n).foldl (pollStep cfg)
      ⟨tracked, [], []⟩).tracked.map Prod.fst).Nodup) ∧
    ((dispatcherPoll cfg tracked (.ok cs)).tracked.map Prod.fst).Nodup ∧
    (startIds (dispatcherPoll cfg tracked (.ok cs)).acts).Nodup ∧
    (∀ id, id ∈ tracked.map Prod.fst →
      DispatchAction.startWatcher id ∉ (dispatcherPoll cfg tracked (.ok cs)).acts) := by
  have hinv := pollFold_inv cfg cs ⟨tracked, [], []⟩ h
    (by intro id hid; simp [startIds] at hid) (by simp [startIds])
  have htr : (dispatcherPoll cfg tracked (.ok cs)).tracked =
      ((((cs.foldl (pollStep cfg) ⟨tracked, [], []⟩).tracked.map Prod.fst).filter
        (fun i => ¬ (cs.foldl (pollStep cfg) ⟨tracked, [], []⟩).alive.contains i)).foldl
        removeStep
        ((cs.foldl (pollStep cfg) ⟨tracked, [], []⟩).tracked,
         (cs.foldl (pollStep cfg) ⟨tracked, [], []⟩).acts)).1 := rfl
  have hacts : (dispatcherPoll cfg tracked (.ok cs)).acts =
      ((((cs.foldl (pollStep cfg) ⟨tracked, [], []⟩).tracked.map Prod.fst).filter
        (fun i => ¬ (cs.foldl (pollStep cfg) ⟨tracked, [], []⟩).alive.contains i)).foldl
        removeStep
        ((cs.foldl (pollStep cfg) ⟨tracked, [], []⟩).tracked,
         (cs.foldl (pollStep cfg) ⟨tracked, [], []⟩).acts)).2 := rfl
  refine ⟨?_, ?_, ?_, ?_⟩
  · intro n
    exact (pollFold_inv cfg (cs.take n) ⟨tracked, [], []⟩ h
      (by intro id hid; simp [startIds] at hid) (by simp [startIds])).1
  · rw [htr, removeFold_fst]
    exact hinv.1.sublist (List.Sublist.map Prod.fst (List.filter_sublist _))
  · rw [hacts, removeFold_snd, startIds, List.filterMap_append]
    show (startIds _ ++ startIds _).Nodup
    rw [startIds_flatMap_removals]
    simpa using hinv.2.2
  · intro id hid hmem
    rw [hacts, removeFold_snd] at hmem
    rcases List.mem_append.1 hmem with hmem | hmem
    · exact (pollFold_no_restart cfg cs ⟨tracked, [], []⟩ id hid (by simp)).2 hmem
    · have := startWatcher_mem_startIds id _ hmem
      rw [startIds_flatMap_removals] at this
      exact absurd this (List.not_mem_nil id)

/-- Witness for claim C5 at concrete inputs: a poll that sees an
already-tracked container and a new container listed twice produces a
duplicate-free tracked map, starts the new container only once, and does
not start the already-tracked one. -/
theorem claim_C5_at_most_one_watcher_witness :
    ((dispatcherPoll ["foo"] [("c0", ⟨"n0"⟩)]
      (.ok [⟨"c0", ["n0"], "foo:1"⟩, ⟨"c1", ["n1"], "foo:1"⟩,
            ⟨"c1", ["n1"], "foo:2"⟩])).tracked.map Prod.fst).Nodup ∧
    (startIds (dispatcherPoll ["foo"] [("c0", ⟨"n0"⟩)]
      (.ok [⟨"c0", ["n0"], "foo:1"⟩, ⟨"c1", ["n1"], "foo:1"⟩,
            ⟨"c1", ["n1"], "foo:2"⟩])).acts).Nodup ∧
    DispatchAction.startWatcher "c0" ∉ (dispatcherPoll ["foo"] [("c0", ⟨"n0"⟩)]
      (.ok [⟨"c0", ["n0"], "foo:1"⟩, ⟨"c1", ["n1"], "foo:1"⟩,
            ⟨"c1", ["n1"], "foo:2"⟩])).acts := by
  refine ⟨?_, ?_, ?_⟩
  · exact (claim_C5_at_most_one_watcher ["foo"] [("c0", ⟨"n0"⟩)]
      [⟨"c0", ["n0"], "foo:1"⟩, ⟨"c1", ["n1"], "foo:1"⟩, ⟨"c1", ["n1"], "foo:2"⟩]
      (by decide)).2.1
  · exact (claim_C5_at_most_one_watcher ["foo"] [("c0", ⟨"n0"⟩)]
      [⟨"c0", ["n0"], "foo:1"⟩, ⟨"c1", ["n1"], "foo:1"⟩, ⟨"c1", ["n1"], "foo:2"⟩]
      (by decide)).2.2.1
  · exact (claim_C5_at_most_one_watcher ["foo"] [("c0", ⟨"n0"⟩)]
      [⟨"c0", ["n0"], "foo:1"⟩, ⟨"c1", ["n1"], "foo:1"⟩, ⟨"c1", ["n1"], "foo:2"⟩]
      (by decide)).2.2.2 "c0" (by decide)

/-- Counterexample to claim C6 as stated: in the teardown of a tracked
container that disappeared from discovery, the handle is removed from
the tracked map first and only then cancelled and awaited, so the await
does not happen before the removal. -/
theorem claim_C6_counterexample :
    (dispatcherPoll ["foo"] [("c1", ⟨"n1"⟩)] (.ok [])).acts =
      [DispatchAction.removeTracked "c1", DispatchAction.stopCancel "c1",
       DispatchAction.stopAwait "c1"] ∧
    ¬ ((dispatcherPoll ["foo"] [("c1", ⟨"n1"⟩)] (.ok [])).acts.indexOf
        (DispatchAction.stopAwait "c1") <
      (dispatcherPoll ["foo"] [("c1", ⟨"n1"⟩)] (.ok [])).acts.indexOf
        (DispatchAction.removeTracked "c1")) := by
  decide

/-- Claim C6 as amended: for every tracked container id absent from the
fresh alive set of a successful poll, the poll takes the handle out of
the tracked map first, then cancels it, then awaits its task, in that
order, and the id is gone from the resulting tracked map. -/
theorem claim_C6_amended_teardown (cfg : List String)
    (tracked : List (String × ContainerWatcher)) (cs : List DockerContainer)
    (id : String) (hid : id ∈ tracked.map Prod.fst)
    (halive : ¬ id ∈ aliveIds cfg tracked cs) :
    ¬ id ∈ (dispatcherPoll cfg tracked (.ok cs)).tracked.map Prod.fst ∧
    (∃ l₁ l₂, (dispatcherPoll cfg tracked (.ok cs)).acts =
      l₁ ++ [DispatchAction.removeTracked id, DispatchAction.stopCancel id,
        DispatchAction.stopAwait id] ++ l₂) := by
  have hmono := pollFold_no_restart cfg cs ⟨tracked, [], []⟩ id hid (by simp)
  have htr : (dispatcherPoll cfg tracked (.ok cs)).tracked =
      ((((cs.foldl (pollStep cfg) ⟨tracked, [], []⟩).tracked.map Prod.fst).filter
        (fun i => ¬ (cs.foldl (pollStep cfg) ⟨tracked, [], []⟩).alive.contains i)).foldl
        removeStep
        ((cs.foldl (pollStep cfg) ⟨tracked, [], []⟩).tracked,
         (cs.foldl (pollStep cfg) ⟨tracked, [], []⟩).acts)).1 := rfl
  have hacts : (dispatcherPoll cfg tracked (.ok cs)).acts =
      ((((cs.foldl (pollStep cfg) ⟨tracked, [], []⟩).tracked.map Prod.fst).filter
        (fun i => ¬ (cs.foldl (pollStep cfg) ⟨tracked, [], []⟩).alive.contains i)).foldl
        removeStep
        ((cs.foldl (pollStep cfg) ⟨tracked, [], []⟩).tracked,
         (cs.foldl (pollStep cfg) ⟨tracked, [], []⟩).acts)).2 := rfl
  have halive₂ : ¬ (cs.foldl (pollStep cfg) ⟨tracked, [], []⟩).alive.contains id := by
    intro hc
    exact halive (List.elem_iff.1 hc)
  have hrem : id ∈ ((cs.foldl (pollStep cfg) ⟨tracked, [], []⟩).tracked.map Prod.fst).filter
      (fun i => ¬ (cs.foldl (pollStep cfg) ⟨tracked, [], []⟩).alive.contains i) := by
    rw [List.mem_filter]
    exact ⟨hmono.1, by simpa using halive₂⟩
  constructor
  · rw [htr, removeFold_fst]
    intro hmem
    rcases List.mem_map.1 hmem with ⟨p, hp, hfst⟩
    rw [List.mem_filter] at hp
    have : ¬ p.1 ∈ ((cs.foldl (pollStep cfg) ⟨tracked, [], []⟩).tracked.map Prod.fst).filter
        (fun i => ¬ (cs.foldl (pollStep cfg) ⟨tracked, [], []⟩).alive.contains i) := by
      simpa using hp.2
    exact this (hfst ▸ hrem)
  · rw [hacts, removeFold_snd]
    rcases flatMap_removals_block _ id hrem with ⟨l₁, l₂, hl⟩
    refine ⟨(cs.foldl (pollStep cfg) ⟨tracked, [], []⟩).acts ++ l₁, l₂, ?_⟩
    rw [hl]
    simp [List.append_assoc]

/-- Witness for claim C6 (amended) at concrete inputs: when discovery
returns an empty list, the tracked container c1 is removed, cancelled and
awaited in that order and is no longer tracked. -/
theorem claim_C6_amended_teardown_witness :
    ¬ "c1" ∈ (dispatcherPoll ["foo"] [("c1", ⟨"n1"⟩)] (.ok [])).tracked.map Prod.fst ∧
    (∃ l₁ l₂, (dispatcherPoll ["foo"] [("c1", ⟨"n1"⟩)] (.ok [])).acts =
      l₁ ++ [DispatchAction.removeTracked "c1", DispatchAction.stopCancel "c1",
        DispatchAction.stopAwait "c1"] ++ l₂) :=
  claim_C6_amended_teardown ["foo"] [("c1", ⟨"n1"⟩)] [] "c1" (by decide) (by decide)

/-! ## The claims about image matching -/

/-- Counterexample to claim C7 as stated: for the image reference
localhost:5000/foo, which has no trailing tag (the text after its last
colon contains a slash), the spec-side comparison leaves the reference
intact and would match the configured image localhost:5000/foo, but the
code strips everything after the last colon and does not match it. -/
theorem claim_C7_counterexample :
    specTagStrip "localhost:5000/foo" = "localhost:5000/foo" ∧
    imageKey "localhost:5000/foo" = "localhost" ∧
    imageMatches ["localhost:5000/foo"] "localhost:5000/foo" = false := by
  decide

/-- Claim C7 as amended: the discovery filter matches a container if and
only if the part of its image reference before the last colon (the whole
reference when it has no colon) is exactly string-equal to one of the
configured tracked image names; an image reference without any colon is
compared as-is. -/
theorem claim_C7_amended_matching (cfg : List String) (image : String) :
    (imageMatches cfg image = true ↔ imageKey image ∈ cfg) ∧
    (¬ ':' ∈ image.toList → imageKey image = image) := by
  constructor
  · rw [imageMatches, List.any_eq_true]
    constructor
    · rintro ⟨d, hd, he⟩
      simp only [decide_eq_true_eq] at he
      exact he ▸ hd
    · intro hmem
      exact ⟨imageKey image, hmem, by simp⟩
  · intro hnc
    rw [imageKey, (rsplitOnceChar_eq_none_iff ':' image.toList).2 hnc]

/-- Witness for claim C7 (amended) at concrete inputs: foo:latest
matches configured image foo, and an image without a colon is compared
unchanged. -/
theorem claim_C7_amended_matching_witness :
    imageMatches ["foo"] "foo:latest" = true ∧ imageKey "bar" = "bar" :=
  ⟨(claim_C7_amended_matching ["foo"] "foo:latest").1.2 (by decide),
   (claim_C7_amended_matching [] "bar").2 (by decide)⟩

/-! ## The claims about the watcher retry loop -/

/-- Counterexample to claim C3 as stated: a watcher started at time 100
whose first stream attempt ends and whose retry happens at time 200
requests the same URI with since=100 again, not since=200 — the retry
does not start from the time of the retry. -/
theorem claim_C3_counterexample :
    watcherRun "c1" 100 [⟨100, .eof, false⟩, ⟨200, .eof, true⟩] =
      [.attempt (mkLogsUri "c1" 100), .backoff 1, .attempt (mkLogsUri "c1" 100)] ∧
    ¬ watcherRun "c1" 100 [⟨100, .eof, false⟩, ⟨200, .eof, true⟩] =
      [.attempt (mkLogsUri "c1" 100), .backoff 1, .attempt (mkLogsUri "c1" 200)] := by
  constructor
  · rfl
  · decide

/-- Claim C3 as amended: after a stream end-of-file or error without
cancellation the watcher sleeps the fixed 1-second backoff and then
retries, and every attempt of the loop, the retries included, requests
the URI computed once at watcher start (since = the watcher's start
time), not one rebuilt from the current time. -/
theorem claim_C3_amended_retry (cid : String) (t : Nat) :
    (∀ attempts, ∀ ev ∈ watcherRun cid t attempts,
      (∀ u, ev = WatcherEv.attempt u → u = mkLogsUri cid t) ∧
      (∀ n, ev = WatcherEv.backoff n → n = 1)) ∧
    (∀ a rest, a.cancelAfter = false →
      watcherRun cid t (a :: rest) =
        .attempt (mkLogsUri cid t) :: .backoff 1 :: watcherRun cid t rest) := by
  constructor
  · intro attempts
    induction attempts with
    | nil => intro ev hev; exact absurd hev (List.not_mem_nil ev)
    | cons a rest ih =>
      intro ev hev
      have hev' : ev ∈ WatcherEv.attempt (mkLogsUri cid t) ::
          (if a.cancelAfter then []
           else WatcherEv.backoff WATCHER_BACKOFF_SECS ::
             watcherLoop (mkLogsUri cid t) rest) := hev
      rcases List.mem_cons.1 hev' with hev₂ | hev₂
      · subst hev₂
        exact ⟨(fun u hu => by cases hu; rfl), (fun n hn => by cases hn)⟩
      · by_cases hc : a.cancelAfter

        · rw [if_pos hc] at hev₂
          exact absurd hev₂ (List.not_mem_nil ev)
        · rw [if_neg hc] at hev₂
          rcases List.mem_cons.1 hev₂ with hev₃ | hev₃
          · subst hev₃
            exact ⟨(fun u hu => by cases hu), (fun n hn => by cases hn; rfl)⟩
          · exact ih ev hev₃
  · intro a rest hc
    show watcherLoop (mkLogsUri cid t) (a :: rest) = _
    rw [watcherLoop, hc]
    rfl

/-- Witness for claim C3 (amended) at concrete inputs: the watcher
started at time 100 that loses its stream without being cancelled sleeps
the 1-second backoff and retries with the URI built from start time 100,
and the second attempt's URI is the start-time one. -/
theorem claim_C3_amended_retry_witness :
    watcherRun "c1" 100 [⟨100, .eof, false⟩, ⟨200, .eof, true⟩] =
      .attempt (mkLogsUri "c1" 100) :: .backoff 1 ::
        watcherRun "c1" 100 [⟨200, .eof, true⟩] ∧
    mkLogsUri "c1" 100 = mkLogsUri "c1" 100 :=
  ⟨(claim_C3_amended_retry "c1" 100).2 ⟨100, .eof, false⟩ [⟨200, .eof, true⟩] rfl,
   ((claim_C3_amended_retry "c1" 100).1 [⟨100, .eof, false⟩, ⟨200, .eof, true⟩]
     (.attempt (mkLogsUri "c1" 100)) (by simp [watcherRun, watcherLoop])).1
     (mkLogsUri "c1" 100) rfl⟩

/-! ## Line-processing lemmas and claim C8 -/

set_option maxHeartbeats 1000000 in
theorem utf8Decode_digits (s : List Nat)
    (h : ∀ b ∈ s, isAsciiDigit b = true) :
    ∃ cs, utf8Decode s = some cs := by
  induction s with
  | nil => exact ⟨[], rfl⟩
  | cons b rest ih =>
    have hb : isAsciiDigit b = true := h b (List.mem_cons_self b rest)
    have hlt : b < 0x80 := by
      simp only [isAsciiDigit, Bool.and_eq_true, decide_eq_true_eq] at hb
      omega
    rcases ih (fun x hx => h x (List.mem_cons_of_mem b hx)) with ⟨cs, hcs⟩
    have hstep : utf8Decode (b :: rest) =
        (utf8Decode rest).map (fun cs => Char.ofNat b :: cs) := by
      rw [utf8Decode.eq_def]
      simp only []
      rw [if_pos hlt]
    exact ⟨Char.ofNat b :: cs, by rw [hstep, hcs]; rfl⟩

theorem processLine_no_panic (l : LineCaptures)
    (hdig : ∀ s, l.group1 = some s → ∀ b ∈ s, isAsciiDigit b = true)
    (m : String) : processLine l ≠ .panicked m := by
  by_cases hm : l.isMatch
  · cases hg : l.group1 with
    | none => simp [processLine, hm, hg]
    | some s =>
      rcases utf8Decode_digits s (hdig s hg) with ⟨cs, hcs⟩
      cases hp : parseU16 cs with
      | none => simp [processLine, hm, hg, hcs, hp]
      | some st =>
        cases hg₂ : l.group2 with
        | none => simp [processLine, hm, hg, hcs, hp, hg₂]
        | some d =>
          cases hd : utf8Decode d with
          | none => simp [processLine, hm, hg, hcs, hp, hg₂, hd]
          | some dch => simp [processLine, hm, hg, hcs, hp, hg₂, hd]
  · simp [processLine, hm]

theorem runLines_ok (caps : List LineCaptures)
    (hdig : ∀ l ∈ caps, ∀ s, l.group1 = some s → ∀ b ∈ s, isAsciiDigit b = true) :
    ∃ rs, runLines caps = .ok rs := by
  induction caps with
  | nil => exact ⟨[], rfl⟩
  | cons l rest ih =>
    rcases ih (fun x hx => hdig x (List.mem_cons_of_mem l hx)) with ⟨rs, hrs⟩
    have hnp := processLine_no_panic l (hdig l (List.mem_cons_self l rest))
    cases hpl : processLine l with
    | panicked m => exact absurd hpl (hnp m)
    | recorded d s => exact ⟨(d, s) :: rs, by simp [runLines, hpl, hrs, Except.map]⟩
    | droppedNoMatch => exact ⟨rs, by simp [runLines, hpl, hrs]⟩
    | droppedNoGroup => exact ⟨rs, by simp [runLines, hpl, hrs]⟩
    | droppedBadStatus raw => exact ⟨rs, by simp [runLines, hpl, hrs]⟩
    | droppedBadDomain => exact ⟨rs, by simp [runLines, hpl, hrs]⟩

/-- Claim C8: given the regex guarantee that the status capture consists
of ASCII digit bytes, no line ever makes the line loop panic and the loop
processes every line: a non-match is dropped silently, a status capture
that fails to parse as u16 drops the line (after logging), a domain
capture that is not valid UTF-8 drops the line, and processing always
continues with the next line (the whole stream yields a result, never an
abort). -/
theorem claim_C8_malformed_lines (caps : List LineCaptures)
    (hdig : ∀ l ∈ caps, ∀ s, l.group1 = some s → ∀ b ∈ s, isAsciiDigit b = true) :
    (∀ l ∈ caps, ∀ m, processLine l ≠ LineOutcome.panicked m) ∧
    (∃ rs, runLines caps = Except.ok rs) ∧
    (∀ l : LineCaptures, l.isMatch = false → processLine l = .droppedNoMatch) ∧
    (∀ (l : LineCaptures) s cs₁, l.isMatch = true → l.group1 = some s →
      utf8Decode s = some cs₁ → parseU16 cs₁ = none →
      processLine l = .droppedBadStatus cs₁) ∧
    (∀ (l : LineCaptures) s cs₁ st d, l.isMatch = true → l.group1 = some s →
      utf8Decode s = some cs₁ → parseU16 cs₁ = some st → l.group2 = some d →
      utf8Decode d = none → processLine l = .droppedBadDomain) ∧
    (∀ (l : LineCaptures) (rest₂ : List LineCaptures),
      (∀ m, processLine l ≠ .panicked m) →
      ((∃ rs, runLines (l :: rest₂) = Except.ok rs) ↔
        (∃ rs, runLines rest₂ = Except.ok rs))) := by
  refine ⟨?_, runLines_ok caps hdig, ?_, ?_, ?_, ?_⟩
  · intro l hl m
    exact processLine_no_panic l (hdig l hl) m
  · intro l hm
    simp [processLine, hm]
  · intro l s cs₁ hm hg hdec hp
    simp [processLine, hm, hg, hdec, hp]
  · intro l s cs₁ st d hm hg hdec hp hg₂ hd
    simp [processLine, hm, hg, hdec, hp, hg₂, hd]
  · intro l rest₂ hnp
    cases hpl : processLine l with
    | panicked m => exact absurd hpl (hnp m)
    | recorded d s =>
      constructor
      · rintro ⟨rs, hrs⟩
        simp only [runLines, hpl] at hrs
        cases hr : runLines rest₂ with
        | error e => rw [hr] at hrs; exact absurd hrs (by simp [Except.map])
        | ok rs₂ => exact ⟨rs₂, rfl⟩
      · rintro ⟨rs, hrs⟩
        exact ⟨(d, s) :: rs, by simp [runLines, hpl, hrs, Except.map]⟩
    | droppedNoMatch => simp [runLines, hpl]
    | droppedNoGroup => simp [runLines, hpl]
    | droppedBadStatus raw => simp [runLines, hpl]
    | droppedBadDomain => simp [runLines, hpl]

/-- Witness for claim C8 at concrete inputs: a stream holding a
non-match, a good line, a line whose status 99999 overflows u16, and a
line whose domain bytes are not UTF-8 is processed to the end without a
panic, and the two malformed lines are dropped with the stated outcomes. -/
theorem claim_C8_malformed_lines_witness :
    (∃ rs, runLines
      [⟨false, none, none⟩,
       ⟨true, some [50, 48, 48], some [101, 120]⟩,
       ⟨true, some [57, 57, 57, 57, 57], some [101]⟩,
       ⟨true, some [50, 48, 48], some [255]⟩] = Except.ok rs) ∧
    processLine ⟨true, some [57, 57, 57, 57, 57], some [101]⟩ =
      .droppedBadStatus ['9', '9', '9', '9', '9'] ∧
    processLine ⟨true, some [50, 48, 48], some [255]⟩ = .droppedBadDomain := by
  refine ⟨?_, ?_, ?_⟩
  · exact (claim_C8_malformed_lines
      [⟨false, none, none⟩,
       ⟨true, some [50, 48, 48], some [101, 120]⟩,
       ⟨true, some [57, 57, 57, 57, 57], some [101]⟩,
       ⟨true, some [50, 48, 48], some [255]⟩] (by decide)).2.1
  · exact (claim_C8_malformed_lines [] (by decide)).2.2.2.1
      ⟨true, some [57, 57, 57, 57, 57], some [101]⟩ [57, 57, 57, 57, 57]
      ['9', '9', '9', '9', '9'] rfl rfl (by decide) (by decide)
  · exact (claim_C8_malformed_lines [] (by decide)).2.2.2.2.1
      ⟨true, some [50, 48, 48], some [255]⟩ [50, 48, 48] ['2', '0', '0'] 200 [255]
      rfl rfl (by decide) (by decide) rfl (by decide)

/-! ## The claim about configuration loading -/

/-- Claim C10: fields omitted from a valid JSON config document are
filled from the built-in defaults (and those defaults are the three
listed literals), so an empty JSON object loads successfully;
load_from_file fails exactly on an open failure, a parse failure, or a
validation failure; and validation rejects exactly an empty docker_images
list or an empty docker_socket string, while listen_address, empty
included, never affects validation. -/
theorem claim_C10_config_loading :
    (∀ j : ConfigJson, deserializeConfig j =
      { docker_images := j.docker_images.getD ["atdr.meo.ws/archiveteam/urls-grab"]
        docker_socket := j.docker_socket.getD "/var/run/docker.sock"
        listen_address := j.listen_address.getD "0.0.0.0:8000" }) ∧
    (deserializeConfig ⟨none, none, none⟩ = Config.defaultConfig) ∧
    (load_from_file (.parsed ⟨none, none, none⟩) = .ok Config.defaultConfig) ∧
    (∀ e, ∃ msg, load_from_file (.openError e) = .error msg) ∧
    (∀ e, ∃ msg, load_from_file (.jsonError e) = .error msg) ∧
    (∀ j : ConfigJson, (∃ c, load_from_file (.parsed j) = .ok c) ↔
      (deserializeConfig j).validate = .ok ()) ∧
    (∀ c : Config, c.validate = .ok () ↔
      (¬ c.docker_images = [] ∧ ¬ c.docker_socket = "")) ∧
    (∀ imgs sock la la₂,
      (Config.mk imgs sock la).validate = (Config.mk imgs sock la₂).validate) := by
  refine ⟨?_, rfl, rfl, ?_, ?_, ?_, ?_, ?_⟩
  · intro j
    rfl
  · intro e
    exact ⟨_, rfl⟩
  · intro e
    exact ⟨_, rfl⟩
  · intro j
    cases hv : (deserializeConfig j).validate with
    | ok u =>
      cases u
      exact ⟨fun _ => rfl, fun _ => ⟨deserializeConfig j, by simp [load_from_file, hv]⟩⟩
    | error e =>
      constructor
      · rintro ⟨c, hc⟩
        simp [load_from_file, hv] at hc
      · intro h
        exact absurd h (by simp)
  · intro c
    unfold Config.validate
    by_cases h₁ : c.docker_images = []
    · simp [h₁]
    · by_cases h₂ : c.docker_socket = "" <;> simp [h₁, h₂]
  · intro imgs sock la la₂
    rfl

end UrlsLogStats
